import Mathlib

/-!
Verification of the flashcards app's SRS core (`src/app.py`):
the scheduler `srs_next`, the due-set selector `collect_due_cards`,
the review-session rating handler, the prompt-type selectors, and the
study-history recording.

Modelling conventions:
* Python `int` is `Int`; Python `float` is modelled as exact `Rat`
  arithmetic (the scheduler only adds, subtracts and multiplies small
  decimal constants).
* Python `int(x)` on a float truncates toward zero: `pytrunc`.
* Calendar dates are day numbers (`Int`, days since 1970-01-01, the
  proleptic Gregorian calendar as implemented by `datetime.date`),
  rendered to zero-padded ISO `YYYY-MM-DD` strings by `isoOfDays`.
* The Supabase stores are external; they appear as explicit function
  or list parameters.
-/

namespace Flashcards

/-- Python `int()` applied to a real value: truncation toward zero. -/
def pytrunc (q : ℚ) : ℤ :=
  if 0 ≤ q then ⌊q⌋ else ⌈q⌉

/-! ### Calendar dates (`datetime.date` + `timedelta`, `isoformat`) -/

/-- Days since 1970-01-01 of the Gregorian date y-m-d (m ∈ 1..12). -/
def daysFromCivil (y m d : ℤ) : ℤ :=
  let y := if m ≤ 2 then y - 1 else y
  let era := Int.fdiv y 400
  let yoe := y - era * 400
  let doy := (153 * (m + (if 2 < m then -3 else 9)) + 2) / 5 + d - 1
  let doe := yoe * 365 + yoe / 4 - yoe / 100 + doy
  era * 146097 + doe - 719468

/-- Gregorian date (y, m, d) of a day number (days since 1970-01-01). -/
def civilFromDays (z : ℤ) : ℤ × ℤ × ℤ :=
  let z := z + 719468
  let era := Int.fdiv z 146097
  let doe := z - era * 146097
  let yoe := (doe - doe / 1460 + doe / 36524 - doe / 146096) / 365
  let y := yoe + era * 400
  let doy := doe - (365 * yoe + yoe / 4 - yoe / 100)
  let mp := (5 * doy + 2) / 153
  let d := doy - (153 * mp + 2) / 5 + 1
  let m := mp + (if mp < 10 then 3 else -9)
  (if m ≤ 2 then y + 1 else y, m, d)

/-- Left-pad the decimal rendering of a non-negative integer with zeros. -/
def padNum (width : ℕ) (n : ℤ) : String :=
  let s := toString n.toNat
  String.mk (List.replicate (width - s.length) '0') ++ s

/-- ISO rendering `date.isoformat()`: day number to zero-padded `YYYY-MM-DD`. -/
def isoOfDays (z : ℤ) : String :=
  let c := civilFromDays z
  padNum 4 c.1 ++ "-" ++ padNum 2 c.2.1 ++ "-" ++ padNum 2 c.2.2

/-! ### SRS records and the scheduler -/

/-- One row of the `user_srs` table, as read and written by `srs_next`. -/
structure SrsEntry where
  srs_interval : ℤ
  srs_ease : ℚ
  srs_reps : ℤ
  srs_due : String
  deriving Repr, DecidableEq

/-- Defaults used by `db_create_srs` (due = today). -/
def db_create_srs (today : ℤ) : SrsEntry :=
  { srs_interval := 1
    srs_due := isoOfDays today
    srs_ease := 5/2
    srs_reps := 0 }

/-- The scheduler `srs_next(srs_entry, rating)` from `src/app.py`.  `today` is the day
number of `datetime.date.today()`.  Ratings 0..3 take the four branches;
any other rating falls through the `if/elif` chain, leaving interval,
ease and reps unchanged. -/
def srs_next (today : ℤ) (srs_entry : SrsEntry) (rating : ℤ) : SrsEntry :=
  let interval := srs_entry.srs_interval
  let ease := srs_entry.srs_ease
  let reps := srs_entry.srs_reps
  let ier : ℤ × ℚ × ℤ :=
    if rating = 0 then      -- Again
      (1, max (13/10) (ease - 2/10), 0)
    else if rating = 1 then -- Hard
      (max 1 (pytrunc ((interval : ℚ) * (12/10))), max (13/10) (ease - 15/100), reps + 1)
    else if rating = 2 then -- Good
      (pytrunc ((interval : ℚ) * ease), ease, reps + 1)
    else if rating = 3 then -- Easy
      (pytrunc ((interval : ℚ) * ease * (13/10)), ease + 1/10, reps + 1)
    else
      (interval, ease, reps)
  { srs_interval := ier.1
    srs_ease := ier.2.1
    srs_reps := ier.2.2
    srs_due := isoOfDays (today + ier.1) }

/-- The scheduler with the boundary check the spec's §4.1/§7 words
demand: ratings outside {0,1,2,3} are rejected (no record produced),
valid ratings behave as the code's `srs_next`.  Spec-side definition,
for comparison with the code. -/
def next_record_spec (today : ℤ) (e : SrsEntry) (rating : ℤ) : Option SrsEntry :=
  if rating = 0 ∨ rating = 1 ∨ rating = 2 ∨ rating = 3 then
    some (srs_next today e rating)
  else
    none

/-! ### Cards and prompt-type selection -/

/-- A vocabulary entry, with the fields the review core reads.  Python's
`card.get("meaning")` is falsy exactly when the field is missing or the
empty string; both are modelled by `""`. -/
structure Word where
  id : ℕ
  word : String
  meaning : String
  comment : String
  deriving Repr, DecidableEq

/-- The candidate list built by `choose_prompt_type`:
`["word"]`, plus `"meaning"` and `"comment"` when non-empty. -/
def prompt_options (card : Word) : List String :=
  ["word"] ++ (if card.meaning = "" then [] else ["meaning"])
    ++ (if card.comment = "" then [] else ["comment"])

/-- The selector `choose_prompt_type(card)` from `src/app.py`: `random.choice` over the
non-empty options.  The implicit random source is injected as `choice`;
`random.choice` picks an index below the length of the list, modelled by
reducing `choice` modulo the length. -/
def choose_prompt_type (choice : ℕ) (card : Word) : String :=
  let options := prompt_options card
  options.getD (choice % options.length) "word"

/-- The selector `choose_srs_prompt_type(word_entry)` from the Review Mode page:
reverse mode is checked first, then mixed mode, else `"word"`. -/
def choose_srs_prompt_type (srs_mixed_mode srs_reverse_mode : Bool) (choice : ℕ)
    (word_entry : Word) : String :=
  if srs_reverse_mode then
    if word_entry.comment ≠ "" then "comment"
    else if word_entry.meaning ≠ "" then "meaning"
    else "word"
  else if srs_mixed_mode then
    choose_prompt_type choice word_entry
  else
    "word"

/-! ### Due-set selection -/

/-- Lexicographic (code-point) `≤` on character lists, Python's string
ordering. -/
def lexLe : List Char → List Char → Bool
  | [], _ => true
  | _ :: _, [] => false
  | a :: as, b :: bs =>
    if a.toNat < b.toNat then true
    else if b.toNat < a.toNat then false
    else lexLe as bs

/-- Python's `<=` on strings: lexicographic by code point. -/
def pyStrLe (a b : String) : Bool :=
  lexLe a.data b.data

/-- The due-set selector `collect_due_cards()` from the Review Mode page, after the review
source has been resolved to the word list `words`.  `srsOf` is the
fetch-or-create against the SRS store (`db_get_srs` followed by
`db_create_srs` when absent); `today` is today's ISO string and
`srs_due <= today` is Python's lexicographic string comparison. -/
def collect_due_cards (review_ahead : Bool) (today : String)
    (words : List Word) (srsOf : Word → SrsEntry) : List (Word × SrsEntry) :=
  (words.map (fun w => (w, srsOf w))).filter
    (fun p => review_ahead || pyStrLe p.2.srs_due today)

/-! ### The review-session state machine -/

/-- The Review Mode session state held in `st.session_state`. -/
structure ReviewState where
  srs_list : List (Word × SrsEntry)
  srs_index : ℕ
  srs_revealed : Bool
  srs_prompt_type : String
  deriving Repr, DecidableEq

/-- Session initialisation (`ss.srs_list = due_cards; ss.srs_index = 0;
ss.srs_revealed = False; ss.srs_prompt_type = choose_srs_prompt_type(...)`).
The code only runs this when `due_cards` is non-empty; on `[]` the
prompt type keeps its `"word"` default. -/
def startSession (mixed reverse : Bool) (choice : ℕ)
    (due_cards : List (Word × SrsEntry)) : ReviewState :=
  { srs_list := due_cards
    srs_index := 0
    srs_revealed := false
    srs_prompt_type :=
      match due_cards with
      | [] => "word"
      | (w, _) :: _ => choose_srs_prompt_type mixed reverse choice w }

/-- The reveal button: `ss.srs_revealed = True`, nothing else changes. -/
def revealCard (s : ReviewState) : ReviewState :=
  { s with srs_revealed := true }

/-- The rating handler (`src/app.py` lines 1734-1749): the scheduler
update `srs_next(srs_entry, rating)` is persisted externally; the session
state advances `srs_index` by one and clears `srs_revealed`; when the
index reaches the end of the list the queue is emptied and the index
reset, otherwise the prompt type is recomputed for the next card.  The
rating value does not influence the session state (no re-insertion on
"Again"). -/
def rateCurrent (mixed reverse : Bool) (choice : ℕ) (rating : ℤ)
    (s : ReviewState) : ReviewState :=
  let i := s.srs_index + 1
  if h : i < s.srs_list.length then
    { srs_list := s.srs_list
      srs_index := i
      srs_revealed := false
      srs_prompt_type := choose_srs_prompt_type mixed reverse choice (s.srs_list.get ⟨i, h⟩).1 }
  else
    { srs_list := []
      srs_index := 0
      srs_revealed := false
      srs_prompt_type := s.srs_prompt_type }

/-- Iterated rating submissions: the `k`-th uses rating
`ratings k` and prompt-randomness `choices k`. -/
def rateN (mixed reverse : Bool) (choices : ℕ → ℕ) (ratings : ℕ → ℤ) :
    ℕ → ReviewState → ReviewState
  | 0, s => s
  | k + 1, s => rateCurrent mixed reverse (choices k) (ratings k)
      (rateN mixed reverse choices ratings k s)

/-! ### Study history -/

/-- The `study_history` table: rows of (user_id, date).
`db_add_study_event` is a bare insert. -/
def db_add_study_event (user_id date : String) (db : List (String × String)) :
    List (String × String) :=
  db ++ [(user_id, date)]

/-- The query `db_get_study_history`: the dates of the user's rows. -/
def db_get_study_history (user_id : String) (db : List (String × String)) :
    List String :=
  (db.filter (fun r => r.1 = user_id)).map (fun r => r.2)

/-- The Study Mode start handler (`src/app.py` lines 1058-1061), the
code's realisation of the spec's `record_study_event`: insert the date
only when it is not already in the user's history. -/
def record_study_event (user_id date : String) (db : List (String × String)) :
    List (String × String) :=
  if date ∈ db_get_study_history user_id db then db
  else db_add_study_event user_id date db

/-! ### Sample data for concrete scenarios -/

/-- A sample card with no meaning and no comment. -/
def cardA : Word :=
  { id := 1, word := "apfel", meaning := "", comment := "" }

/-- A second sample card. -/
def cardB : Word :=
  { id := 2, word := "birne", meaning := "pear", comment := "" }

/-- A sample SRS store: card 1 is due 2026-02-10, everything else a day
later. -/
def srsSampleOf (w : Word) : SrsEntry :=
  if w.id = 1 then
    { srs_interval := 1, srs_ease := 2, srs_reps := 0, srs_due := "2026-02-10" }
  else
    { srs_interval := 1, srs_ease := 2, srs_reps := 0, srs_due := "2026-02-11" }

/-! ## Scheduler lemmas and theorems -/

/-- Python `int()` agrees with the floor on non-negative values. -/
lemma pytrunc_eq_floor {q : ℚ} (h : 0 ≤ q) : pytrunc q = ⌊q⌋ :=
  if_pos h

/-- Truncation of a value ≥ 1 stays ≥ 1. -/
lemma one_le_pytrunc {q : ℚ} (h : 1 ≤ q) : 1 ≤ pytrunc q := by
  rw [pytrunc_eq_floor (le_trans zero_le_one h)]
  exact Int.le_floor.mpr (by exact_mod_cast h)

/-- An interval ≥ 1 scaled by an ease ≥ 1.3 stays ≥ 1. -/
lemma one_le_cast_mul {i : ℤ} {e : ℚ} (hi : 1 ≤ i) (he : 13/10 ≤ e) :
    (1 : ℚ) ≤ (i : ℚ) * e := by
  have h1 : (1 : ℚ) ≤ (i : ℚ) := by exact_mod_cast hi
  nlinarith

/-- C1 (counterexample): the claim quantifies over any input ease, but
the Good branch passes the ease through unchanged, so an input ease of
1 (< 1.3) yields an output ease of 1, violating `ease ≥ 1.3` even
though the rating 2 is one of {0,1,2,3}. -/
theorem srs_next_invariant_cex :
    ((2 : ℤ) = 0 ∨ (2 : ℤ) = 1 ∨ (2 : ℤ) = 2 ∨ (2 : ℤ) = 3) ∧
    ¬ (13/10 ≤ (srs_next 0
        { srs_interval := 1, srs_ease := 1, srs_reps := 0, srs_due := "1970-01-01" }
        2).srs_ease) := by
  constructor
  · right; right; left; rfl
  · have h : (srs_next 0
        { srs_interval := 1, srs_ease := 1, srs_reps := 0, srs_due := "1970-01-01" }
        2).srs_ease = 1 := by
      simp [srs_next]
    rw [h]
    norm_num

/-- C1 (amended): for every record satisfying the data model's own
invariant (`interval ≥ 1`, `ease ≥ 1.3`) and every rating in
{0,1,2,3}, the record returned by `srs_next` again satisfies
`ease ≥ 1.3` and `interval ≥ 1`. -/
theorem srs_next_preserves_invariants (today : ℤ) (e : SrsEntry) (rating : ℤ)
    (hr : rating = 0 ∨ rating = 1 ∨ rating = 2 ∨ rating = 3)
    (hi : 1 ≤ e.srs_interval) (he : 13/10 ≤ e.srs_ease) :
    13/10 ≤ (srs_next today e rating).srs_ease ∧
    1 ≤ (srs_next today e rating).srs_interval := by
  rcases hr with h | h | h | h <;> subst h
  · exact ⟨by simp [srs_next], by simp [srs_next]⟩
  · refine ⟨by simp [srs_next], ?_⟩
    simp only [srs_next]
    norm_num
  · refine ⟨by simp [srs_next, he], ?_⟩
    simp only [srs_next]
    norm_num
    exact one_le_pytrunc (one_le_cast_mul hi he)
  · constructor
    · simp only [srs_next]
      norm_num
      linarith
    · simp only [srs_next]
      norm_num
      refine one_le_pytrunc ?_
      have h1 : (1 : ℚ) ≤ (e.srs_interval : ℚ) * e.srs_ease := one_le_cast_mul hi he
      nlinarith

/-- C1 (witness): the invariant theorem applied to the default record
and the rating Again. -/
theorem srs_next_preserves_invariants_wit :
    13/10 ≤ (srs_next 0
      { srs_interval := 1, srs_ease := 5/2, srs_reps := 0, srs_due := "1970-01-01" }
      0).srs_ease ∧
    1 ≤ (srs_next 0
      { srs_interval := 1, srs_ease := 5/2, srs_reps := 0, srs_due := "1970-01-01" }
      0).srs_interval :=
  srs_next_preserves_invariants 0 _ 0 (Or.inl rfl) (by norm_num) (by norm_num)

/-- C2 (counterexample): rating 5 lies outside {0,1,2,3}; the checked
spec-side scheduler rejects it, but the code's `srs_next` silently
accepts it and returns a normal record. -/
theorem srs_next_reject_cex :
    ((5 : ℤ) ≠ 0 ∧ (5 : ℤ) ≠ 1 ∧ (5 : ℤ) ≠ 2 ∧ (5 : ℤ) ≠ 3) ∧
    next_record_spec 0
      { srs_interval := 1, srs_ease := 2, srs_reps := 0, srs_due := "1970-01-01" } 5 = none ∧
    srs_next 0
      { srs_interval := 1, srs_ease := 2, srs_reps := 0, srs_due := "1970-01-01" } 5
      = { srs_interval := 1, srs_ease := 2, srs_reps := 0, srs_due := "1970-01-02" } := by
  refine ⟨by norm_num, by simp [next_record_spec], ?_⟩
  simp only [srs_next, SrsEntry.mk.injEq]
  norm_num
  decide

/-- C2 (amended): `srs_next` performs no boundary check: a rating
outside {0,1,2,3} is silently accepted, the call returns normally with
interval, ease and repetitions unchanged. -/
theorem srs_next_no_boundary_check (today : ℤ) (e : SrsEntry) (rating : ℤ)
    (h : ¬ (rating = 0 ∨ rating = 1 ∨ rating = 2 ∨ rating = 3)) :
    (srs_next today e rating).srs_interval = e.srs_interval ∧
    (srs_next today e rating).srs_ease = e.srs_ease ∧
    (srs_next today e rating).srs_reps = e.srs_reps := by
  push_neg at h
  obtain ⟨h0, h1, h2, h3⟩ := h
  simp [srs_next, h0, h1, h2, h3]

/-- C2 (amended, witness): the no-boundary-check theorem at rating 5. -/
theorem srs_next_no_boundary_check_wit :
    (srs_next 0 { srs_interval := 1, srs_ease := 2, srs_reps := 0, srs_due := "x" }
      5).srs_interval = 1 ∧
    (srs_next 0 { srs_interval := 1, srs_ease := 2, srs_reps := 0, srs_due := "x" }
      5).srs_ease = 2 ∧
    (srs_next 0 { srs_interval := 1, srs_ease := 2, srs_reps := 0, srs_due := "x" }
      5).srs_reps = 0 :=
  srs_next_no_boundary_check 0 _ 5 (by norm_num)

/-- C3: on a well-formed record the Good branch returns
`interval' = ⌊interval * ease⌋` exactly, increments the repetitions,
and leaves the ease unchanged. -/
theorem srs_next_good (today : ℤ) (e : SrsEntry)
    (hi : 1 ≤ e.srs_interval) (he : 13/10 ≤ e.srs_ease) :
    (srs_next today e 2).srs_interval = ⌊(e.srs_interval : ℚ) * e.srs_ease⌋ ∧
    (srs_next today e 2).srs_reps = e.srs_reps + 1 ∧
    (srs_next today e 2).srs_ease = e.srs_ease := by
  have h0 : (0 : ℚ) ≤ (e.srs_interval : ℚ) * e.srs_ease :=
    le_trans zero_le_one (one_le_cast_mul hi he)
  refine ⟨?_, ?_, ?_⟩ <;> simp [srs_next, pytrunc_eq_floor h0]

/-- C3 (witness): the Good theorem at the default record:
`⌊1 * 2.5⌋ = 2`, reps 0 → 1, ease still 2.5. -/
theorem srs_next_good_wit :
    (srs_next 0 { srs_interval := 1, srs_ease := 5/2, srs_reps := 0, srs_due := "" }
      2).srs_interval = 2 ∧
    (srs_next 0 { srs_interval := 1, srs_ease := 5/2, srs_reps := 0, srs_due := "" }
      2).srs_reps = 1 ∧
    (srs_next 0 { srs_interval := 1, srs_ease := 5/2, srs_reps := 0, srs_due := "" }
      2).srs_ease = 5/2 := by
  have h := srs_next_good 0
    { srs_interval := 1, srs_ease := 5/2, srs_reps := 0, srs_due := "" }
    (by norm_num) (by norm_num)
  refine ⟨?_, h.2.1, h.2.2⟩
  rw [h.1]
  norm_num

/-- C4: the Again branch sets repetitions to 0, interval to 1, ease to
`max(1.3, ease - 0.2)` and due to today + 1 day, for every input
record; and on 2025-01-01 the record (1, 2.5, 0) becomes
(1, 2.3, 0, "2025-01-02"). -/
theorem srs_next_again_spec :
    (∀ (today : ℤ) (e : SrsEntry), srs_next today e 0 =
      { srs_interval := 1, srs_ease := max (13/10) (e.srs_ease - 2/10), srs_reps := 0,
        srs_due := isoOfDays (today + 1) }) ∧
    srs_next (daysFromCivil 2025 1 1)
      { srs_interval := 1, srs_ease := 5/2, srs_reps := 0, srs_due := "2025-01-01" } 0
      = { srs_interval := 1, srs_ease := 23/10, srs_reps := 0, srs_due := "2025-01-02" } := by
  constructor
  · intro today e
    simp [srs_next]
  · simp only [srs_next, SrsEntry.mk.injEq]
    refine ⟨by norm_num, ?_, by norm_num, by decide⟩
    rw [max_eq_right (by norm_num)]
    norm_num

/-- C5: on a well-formed record the Easy branch returns
`interval' = ⌊interval * ease * 1.3⌋`, `ease' = ease + 0.1` and
`reps' = reps + 1`. -/
theorem srs_next_easy (today : ℤ) (e : SrsEntry)
    (hi : 1 ≤ e.srs_interval) (he : 13/10 ≤ e.srs_ease) :
    (srs_next today e 3).srs_interval = ⌊(e.srs_interval : ℚ) * e.srs_ease * (13/10)⌋ ∧
    (srs_next today e 3).srs_ease = e.srs_ease + 1/10 ∧
    (srs_next today e 3).srs_reps = e.srs_reps + 1 := by
  have h1 : (1 : ℚ) ≤ (e.srs_interval : ℚ) * e.srs_ease := one_le_cast_mul hi he
  have h0 : (0 : ℚ) ≤ (e.srs_interval : ℚ) * e.srs_ease * (13/10) := by nlinarith
  refine ⟨?_, ?_, ?_⟩ <;> simp [srs_next, pytrunc_eq_floor h0]

/-- C5 (witness): the Easy theorem at the record (2, 2.5, 1):
`⌊2 * 2.5 * 1.3⌋ = ⌊6.5⌋ = 6`, ease 2.6, reps 2. -/
theorem srs_next_easy_wit :
    (srs_next 0 { srs_interval := 2, srs_ease := 5/2, srs_reps := 1, srs_due := "" }
      3).srs_interval = 6 ∧
    (srs_next 0 { srs_interval := 2, srs_ease := 5/2, srs_reps := 1, srs_due := "" }
      3).srs_ease = 26/10 ∧
    (srs_next 0 { srs_interval := 2, srs_ease := 5/2, srs_reps := 1, srs_due := "" }
      3).srs_reps = 2 := by
  have h := srs_next_easy 0
    { srs_interval := 2, srs_ease := 5/2, srs_reps := 1, srs_due := "" }
    (by norm_num) (by norm_num)
  refine ⟨?_, ?_, h.2.2⟩
  · rw [h.1]
    norm_num
  · rw [h.2.1]
    norm_num

/-- C10: for a rating outside {0,1,2,3} the `if/elif` chain of
`srs_next` falls through: the call returns normally, interval, ease and
repetitions are the input values unchanged, and only `due` is
recomputed as today + the unchanged interval. -/
theorem srs_next_invalid_frame (today : ℤ) (e : SrsEntry) (rating : ℤ)
    (h0 : rating ≠ 0) (h1 : rating ≠ 1) (h2 : rating ≠ 2) (h3 : rating ≠ 3) :
    srs_next today e rating =
      { srs_interval := e.srs_interval, srs_ease := e.srs_ease, srs_reps := e.srs_reps,
        srs_due := isoOfDays (today + e.srs_interval) } := by
  simp [srs_next, h0, h1, h2, h3]

/-- C10 (witness): the fall-through theorem at rating 5: interval 3,
ease 2 and reps 4 survive unchanged, due becomes 1970-01-04. -/
theorem srs_next_invalid_frame_wit :
    srs_next 0 { srs_interval := 3, srs_ease := 2, srs_reps := 4, srs_due := "1970-01-01" } 5
      = { srs_interval := 3, srs_ease := 2, srs_reps := 4, srs_due := "1970-01-04" } := by
  rw [srs_next_invalid_frame 0 _ 5 (by norm_num) (by norm_num) (by norm_num) (by norm_num)]
  decide

/-! ## Due-set selection -/

/-- C6: a candidate card is in the due set exactly when `review_ahead`
is set or its record's due ISO string is lexicographically ≤ today's. -/
theorem collect_due_cards_mem (review_ahead : Bool) (today : String)
    (words : List Word) (srsOf : Word → SrsEntry) (w : Word) (hw : w ∈ words) :
    (w, srsOf w) ∈ collect_due_cards review_ahead today words srsOf ↔
      review_ahead = true ∨ pyStrLe (srsOf w).srs_due today = true := by
  unfold collect_due_cards
  rw [List.mem_filter]
  constructor
  · rintro ⟨-, hcond⟩
    simpa [Bool.or_eq_true] using hcond
  · intro h
    refine ⟨List.mem_map_of_mem _ hw, ?_⟩
    simpa [Bool.or_eq_true] using h

/-- C6 (witness): with today = 2026-02-10, a card due 2026-02-10 is
selected, a card due 2026-02-11 is not, and is selected once
`review_ahead` is on. -/
theorem collect_due_cards_mem_wit :
    (cardA, srsSampleOf cardA) ∈
      collect_due_cards false "2026-02-10" [cardA, cardB] srsSampleOf ∧
    (cardB, srsSampleOf cardB) ∉
      collect_due_cards false "2026-02-10" [cardA, cardB] srsSampleOf ∧
    (cardB, srsSampleOf cardB) ∈
      collect_due_cards true "2026-02-10" [cardA, cardB] srsSampleOf := by
  refine ⟨?_, ?_, ?_⟩
  · exact (collect_due_cards_mem false "2026-02-10" [cardA, cardB] srsSampleOf cardA
      (by decide)).mpr (Or.inr (by decide))
  · intro hmem
    rcases (collect_due_cards_mem false "2026-02-10" [cardA, cardB] srsSampleOf cardB
        (by decide)).mp hmem with h | h
    · exact absurd h (by decide)
    · exact absurd h (by decide)
  · exact (collect_due_cards_mem true "2026-02-10" [cardA, cardB] srsSampleOf cardB
      (by decide)).mpr (Or.inl rfl)

/-! ## The review session is a single pass -/

/-- A rating that is not the last advances the index and keeps the
queue. -/
lemma rateCurrent_advance {mixed reverse : Bool} {c : ℕ} {r : ℤ} {s : ReviewState}
    (h : s.srs_index + 1 < s.srs_list.length) :
    (rateCurrent mixed reverse c r s).srs_list = s.srs_list ∧
    (rateCurrent mixed reverse c r s).srs_index = s.srs_index + 1 := by
  simp [rateCurrent, h]

/-- The last rating empties the queue and resets the position. -/
lemma rateCurrent_done {mixed reverse : Bool} {c : ℕ} {r : ℤ} {s : ReviewState}
    (h : ¬ (s.srs_index + 1 < s.srs_list.length)) :
    rateCurrent mixed reverse c r s =
      { srs_list := [], srs_index := 0, srs_revealed := false,
        srs_prompt_type := s.srs_prompt_type } := by
  simp [rateCurrent, h]

/-- After `k < |queue|` ratings the queue is untouched and the position
is `k`. -/
lemma rateN_state (mixed reverse : Bool) (cs : ℕ → ℕ) (rs : ℕ → ℤ) (c0 : ℕ)
    (queue : List (Word × SrsEntry)) :
    ∀ k, k < queue.length →
      (rateN mixed reverse cs rs k (startSession mixed reverse c0 queue)).srs_list = queue ∧
      (rateN mixed reverse cs rs k (startSession mixed reverse c0 queue)).srs_index = k := by
  intro k
  induction k with
  | zero => exact fun _ => ⟨rfl, rfl⟩
  | succ k ih =>
    intro hk
    obtain ⟨hl, hi⟩ := ih (Nat.lt_of_succ_lt hk)
    have hcond : (rateN mixed reverse cs rs k
        (startSession mixed reverse c0 queue)).srs_index + 1 <
        (rateN mixed reverse cs rs k (startSession mixed reverse c0 queue)).srs_list.length := by
      rw [hl, hi]
      exact hk
    have hadv := @rateCurrent_advance mixed reverse (cs k) (rs k)
      (rateN mixed reverse cs rs k (startSession mixed reverse c0 queue)) hcond
    exact ⟨hadv.1.trans hl, hadv.2.trans (by rw [hi])⟩

/-- C7: a session over a queue of length N, where each card is rated
exactly once (any ratings, including Again), keeps the queue fixed and
advances the position by exactly one per rating, so the card shown
after k ratings is `queue[k]` (strict queue order, no re-insertion);
after the N-th rating the queue is emptied and the position reset. -/
theorem review_session_single_pass (mixed reverse : Bool) (cs : ℕ → ℕ) (rs : ℕ → ℤ)
    (c0 : ℕ) (queue : List (Word × SrsEntry)) :
    (∀ k, k < queue.length →
      (rateN mixed reverse cs rs k (startSession mixed reverse c0 queue)).srs_index = k ∧
      (rateN mixed reverse cs rs k (startSession mixed reverse c0 queue)).srs_list.get?
        (rateN mixed reverse cs rs k (startSession mixed reverse c0 queue)).srs_index
        = queue.get? k) ∧
    (rateN mixed reverse cs rs queue.length
      (startSession mixed reverse c0 queue)).srs_list = [] ∧
    (rateN mixed reverse cs rs queue.length
      (startSession mixed reverse c0 queue)).srs_index = 0 ∧
    (rateN mixed reverse cs rs queue.length
      (startSession mixed reverse c0 queue)).srs_revealed = false := by
  constructor
  · intro k hk
    obtain ⟨hl, hi⟩ := rateN_state mixed reverse cs rs c0 queue k hk
    exact ⟨hi, by rw [hl, hi]⟩
  · cases hq : queue with
    | nil =>
      subst hq
      exact ⟨rfl, rfl, rfl⟩
    | cons a l =>
      subst hq
      obtain ⟨hl, hi⟩ := rateN_state mixed reverse cs rs c0 (a :: l) l.length
        (Nat.lt_succ_self _)
      have hcond : ¬ ((rateN mixed reverse cs rs l.length
          (startSession mixed reverse c0 (a :: l))).srs_index + 1 <
          (rateN mixed reverse cs rs l.length
            (startSession mixed reverse c0 (a :: l))).srs_list.length) := by
        rw [hl, hi]
        simp
      have hdone := @rateCurrent_done mixed reverse (cs l.length) (rs l.length)
        (rateN mixed reverse cs rs l.length (startSession mixed reverse c0 (a :: l))) hcond
      have hstep : rateN mixed reverse cs rs (a :: l).length
          (startSession mixed reverse c0 (a :: l)) =
          rateCurrent mixed reverse (cs l.length) (rs l.length)
            (rateN mixed reverse cs rs l.length (startSession mixed reverse c0 (a :: l))) :=
        rfl
      rw [hstep, hdone]
      exact ⟨rfl, rfl, rfl⟩

/-- C7 (witness): a two-card session rated Again twice still visits
each card once (position 1 after the first rating) and then completes
with an empty queue. -/
theorem review_session_single_pass_wit :
    (rateN false false (fun _ => 0) (fun _ => 0) 1
      (startSession false false 0
        [(cardA, srsSampleOf cardA), (cardB, srsSampleOf cardB)])).srs_index = 1 ∧
    (rateN false false (fun _ => 0) (fun _ => 0) 2
      (startSession false false 0
        [(cardA, srsSampleOf cardA), (cardB, srsSampleOf cardB)])).srs_list = [] ∧
    (rateN false false (fun _ => 0) (fun _ => 0) 2
      (startSession false false 0
        [(cardA, srsSampleOf cardA), (cardB, srsSampleOf cardB)])).srs_index = 0 := by
  have h := review_session_single_pass false false (fun _ => 0) (fun _ => 0) 0
    [(cardA, srsSampleOf cardA), (cardB, srsSampleOf cardB)]
  exact ⟨(h.1 1 (by decide)).1, h.2.1, h.2.2.1⟩

/-! ## Prompt-type selection -/

/-- C8: reverse mode wins over mixed mode and deterministically prefers
comment, then meaning, then word; mixed mode only ever picks one of the
non-empty options, so a card with empty meaning and comment always gets
"word"; with both modes off the prompt is always "word". -/
theorem choose_prompt_spec (card : Word) (choice : ℕ) :
    (∀ mixed : Bool, choose_srs_prompt_type mixed true choice card =
      (if card.comment ≠ "" then "comment"
       else if card.meaning ≠ "" then "meaning"
       else "word")) ∧
    choose_srs_prompt_type true false choice card ∈ prompt_options card ∧
    (card.meaning = "" → card.comment = "" →
      choose_srs_prompt_type true false choice card = "word") ∧
    choose_srs_prompt_type false false choice card = "word" := by
  refine ⟨?_, ?_, ?_, ?_⟩
  · intro mixed
    simp [choose_srs_prompt_type]
  · have hlen : 0 < (prompt_options card).length := by
      unfold prompt_options
      simp [List.length_append]
    show choose_prompt_type choice card ∈ prompt_options card
    unfold choose_prompt_type
    rw [List.getD_eq_getElem _ _ (Nat.mod_lt _ hlen)]
    exact List.getElem_mem _
  · intro hm hc
    show choose_prompt_type choice card = "word"
    unfold choose_prompt_type prompt_options
    simp [hm, hc]
  · rfl

/-- C8 (witness): a card with empty meaning and comment gets "word" in
mixed mode; with both modes on, a card with a meaning but no comment
gets "meaning" (reverse wins). -/
theorem choose_prompt_spec_wit :
    choose_srs_prompt_type true false 7 cardA = "word" ∧
    choose_srs_prompt_type true true 3 cardB = "meaning" := by
  constructor
  · exact (choose_prompt_spec cardA 7).2.2.1 rfl rfl
  · rw [(choose_prompt_spec cardB 3).1 true]
    decide

/-! ## Study-history recording -/

/-- After recording, the date is in the user's history. -/
lemma mem_history_record (user date : String) (db : List (String × String)) :
    date ∈ db_get_study_history user (record_study_event user date db) := by
  by_cases h : date ∈ db_get_study_history user db
  · simp [record_study_event, h]
  · simp only [record_study_event, if_neg h]
    unfold db_get_study_history db_add_study_event
    rw [List.filter_append, List.map_append]
    simp

/-- Recording an absent date appends exactly it to the history. -/
lemma history_record_not_mem (user date : String) (db : List (String × String))
    (h : date ∉ db_get_study_history user db) :
    db_get_study_history user (record_study_event user date db)
      = db_get_study_history user db ++ [date] := by
  simp only [record_study_event, if_neg h]
  unfold db_get_study_history db_add_study_event
  rw [List.filter_append, List.map_append]
  simp

/-- C9: the guarded study-event recording is idempotent — a second call
with the same (user, date) changes nothing and is not an error — and
starting from a history without the date, two calls leave exactly one
entry for that date. -/
theorem record_study_event_idempotent (user date : String)
    (db : List (String × String)) :
    record_study_event user date (record_study_event user date db)
      = record_study_event user date db ∧
    (date ∉ db_get_study_history user db →
      (db_get_study_history user
        (record_study_event user date
          (record_study_event user date db))).count date = 1) := by
  have hmem := mem_history_record user date db
  have hidem : record_study_event user date (record_study_event user date db)
      = record_study_event user date db := by
    conv_lhs => rw [record_study_event]
    rw [if_pos hmem]
  refine ⟨hidem, fun h => ?_⟩
  rw [hidem, history_record_not_mem user date db h, List.count_append]
  simp [List.count_eq_zero.mpr h]

/-- C9 (witness): the idempotence theorem on a two-row table where user
"u" has not yet recorded "2026-02-10". -/
theorem record_study_event_idempotent_wit :
    record_study_event "u" "2026-02-10"
        (record_study_event "u" "2026-02-10" [("u", "2026-02-09"), ("v", "2026-02-10")])
      = record_study_event "u" "2026-02-10" [("u", "2026-02-09"), ("v", "2026-02-10")] ∧
    (db_get_study_history "u"
      (record_study_event "u" "2026-02-10"
        (record_study_event "u" "2026-02-10"
          [("u", "2026-02-09"), ("v", "2026-02-10")]))).count "2026-02-10" = 1 := by
  have h := record_study_event_idempotent "u" "2026-02-10"
    [("u", "2026-02-09"), ("v", "2026-02-10")]
  exact ⟨h.1, h.2 (by decide)⟩

end Flashcards
